import Mathlib

/-!
Verification development for the reika runtime (async executor + io_uring reactor).

The definitions below are a shallow embedding of the Rust sources:
  * `Reactor` models `reika-reactor/src/lib.rs` (submit, flush_submissions,
    flush_completions, flush, run, run_for_ns) and `reika-reactor/src/ops/io.rs`
    (the raw read/write submission constructors) and the `poll` body generated
    by `derive_future` in `reika-macros/src/lib.rs`.
  * `Exec` models `async-executor/src/queue.rs` (the intrusive LIFO task queue)
    and `async-executor/src/lib.rs` (`Executor::spawn_task`, `Executor::run`).
  * `Pool` models `TaskPool::prepare_task`, `TaskPool::finalize` and
    `TaskFreeList` from `async-executor`.

Machine integers are modelled as `Nat`/`Int`; `usize`/`u64` subtractions that
can underflow are modelled as checked subtractions that surface an explicit
panic value (matching the debug-build behaviour of the source).  Raw pointers
are modelled as `Nat` with `0` for null.  Kernel interaction is modelled by an
oracle threaded through the state: a list of outcomes for successive
`submit_and_wait` invocations and a list of batches of completion-queue
entries yielded by successive reads of the completion ring.  The `trace`
field of the reactor state is a log of kernel-boundary actions (submission
queue pushes, `submit_and_wait` calls, completion dispatches); it is
instrumentation only and never influences control flow.
-/

namespace Reactor

/-- outcome of one `submit_and_wait` syscall, as discriminated by
`flush_submissions` in the source (`EINTR`, `EBUSY`, `EAGAIN`, other). -/
inductive SawOutcome
  | ok
  | eintr
  | ebusy
  | eagain
  | fatal
  deriving DecidableEq

/-- a completion-queue entry: the user-data stamp and the kernel result. -/
structure Cqe where
  userData : Nat
  result : Int
  deriving DecidableEq

/-- a submission-queue entry (`io_uring::squeue::Entry`), with the fields the
claims observe: opcode, fd, buffer address/length, offset, user data. -/
structure Entry where
  opcode : Nat
  fd : Int := 0
  addr : Nat := 0
  len : Nat := 0
  offset : Nat := 0
  userData : Nat := 0
  deriving DecidableEq

/-- kernel-boundary actions logged in the instrumentation trace. -/
inductive Event
  | push (userData : Nat) (opcode : Nat)
  | sawCall (want : Nat)
  | dispatch (userData : Nat) (result : Int)
  deriving DecidableEq

/-- abnormal terminations: the two unchecked `usize` subtractions in
`flush_completions` and the `unwrap` on the retried timeout push in
`run_for_ns`. -/
inductive PanicKind
  | timeoutUnderflow
  | reqUnderflow
  | pushRetryFailed
  deriving DecidableEq

/-- result of a reactor operation: normal return, `Err(io::Error)` return,
panic, or divergence (the modelling fuel ran out inside a source loop). -/
inductive Res (α : Type)
  | ok (a : α)
  | err
  | panic (p : PanicKind)
  | div
  deriving DecidableEq

/-- reactor state: ring capacity, pending submission queue, the
outstanding-request counter `req_queued`, the kernel oracle (submit outcomes
and completion batches), the monotonic clock sample, and the action trace. -/
structure RSt where
  sqCap : Nat
  sq : List Entry
  reqQueued : Nat
  saw : List SawOutcome
  batches : List (List Cqe)
  clockSec : Nat
  clockNsec : Nat
  trace : List Event
  deriving DecidableEq

/-- the Linux `ETIME` errno. -/
def ETIME : Int := 62

/-- io_uring opcode numbers used by the embedded constructors. -/
def OP_TIMEOUT : Nat := 11

def OP_OPENAT : Nat := 18

def OP_CLOSE : Nat := 19

def OP_READ : Nat := 22

def OP_WRITE : Nat := 23

/-- one read of the completion ring: the next batch of available CQEs from
the oracle (an exhausted oracle yields no completions). -/
def readCqes (st : RSt) : List Cqe × RSt :=
  match st.batches with
  | [] => ([], st)
  | b :: rest => (b, { st with batches := rest })

/-- push onto the submission queue: fails (returns `none`) when the ring is
full, otherwise appends the entry and logs the push. -/
def sqPush (st : RSt) (en : Entry) : Option RSt :=
  if st.sq.length < st.sqCap then
    some { st with sq := st.sq ++ [en], trace := st.trace ++ [.push en.userData en.opcode] }
  else
    none

/-- the `for cqe in mutself.completion()` body of `flush_completions`:
user-data zero is a timeout marker (decrement the local timeout counter,
unchecked; set `etime` when the result is negated `ETIME`), anything else is a
request pointer (write back the result, wake the stored waker — logged as a
`dispatch` event — and bump `collected`). -/
def processCqes : List Cqe → Nat → Bool → Nat → List Event →
    Except PanicKind (Nat × Bool × Nat × List Event)
  | [], t, e, c, tr => .ok (t, e, c, tr)
  | cqe :: rest, t, e, c, tr =>
    if cqe.userData = 0 then
      match t with
      | 0 => .error .timeoutUnderflow
      | t' + 1 => processCqes rest t' (if -cqe.result = ETIME then true else e) c tr
    else
      processCqes rest t e (c + 1) (tr ++ [.dispatch cqe.userData cqe.result])

/-- the loop of `Reactor::flush_completions`.  Note that `collected` is
cumulative across loop iterations and the source subtracts it from
`req_queued` on every pass (`*mutreq -= collected`), exactly as modelled
here.  Fuel bounds the number of passes; running out is divergence. -/
def fcLoop (want : Nat) : Nat → Nat → Bool → Nat → RSt → Res (Nat × Bool × Nat) × RSt
  | 0, _, _, _, st => (.div, st)
  | fuel + 1, t, e, c, st =>
    let cqes := (readCqes st).1
    let st1 := (readCqes st).2
    match processCqes cqes t e c st1.trace with
    | .error p => (.panic p, st1)
    | .ok (t1, e1, c1, tr1) =>
      let st2 := { st1 with trace := tr1 }
      if c1 ≤ st2.reqQueued then
        let st3 := { st2 with reqQueued := st2.reqQueued - c1 }
        if want ≤ c1 then (.ok (t1, e1, c1), st3)
        else fcLoop want fuel t1 e1 c1 st3
      else (.panic .reqUnderflow, st2)

/-- `Reactor::flush_completions(want, timeouts, etime)`: run the dispatch
loop starting from `collected = 0` and return the updated
`(timeouts, etime)`. -/
def flush_completions (fuel want t : Nat) (e : Bool) (st : RSt) : Res (Nat × Bool) × RSt :=
  match fcLoop want fuel t e 0 st with
  | (.ok (t1, e1, _), st') => (.ok (t1, e1), st')
  | (.err, st') => (.err, st')
  | (.panic p, st') => (.panic p, st')
  | (.div, st') => (.div, st')

/-- one `submit_and_wait(want)` syscall: logs the call, consumes the next
oracle outcome (success when the oracle is exhausted), and on success the
pending submission queue is handed to the kernel. -/
def submit_and_wait (want : Nat) (st : RSt) : SawOutcome × RSt :=
  let st0 := { st with trace := st.trace ++ [Event.sawCall want] }
  match st0.saw with
  | [] => (.ok, { st0 with sq := [] })
  | o :: rest =>
    let st1 := { st0 with saw := rest }
    match o with
    | .ok => (.ok, { st1 with sq := [] })
    | o => (o, st1)

/-- `Reactor::flush_submissions`: loop on `submit_and_wait(want)`; retry on
`EINTR`; on `EBUSY`/`EAGAIN` drain one completion (`flush_completions` with
want 1) and retry; propagate other errors. -/
def flush_submissions (want : Nat) : Nat → Nat → Bool → RSt → Res (Nat × Bool) × RSt
  | 0, _, _, st => (.div, st)
  | fuel + 1, t, e, st =>
    match submit_and_wait want st with
    | (.ok, st1) => (.ok (t, e), st1)
    | (.eintr, st1) => flush_submissions want fuel t e st1
    | (.ebusy, st1) =>
      match flush_completions fuel 1 t e st1 with
      | (.ok (t1, e1), st2) => flush_submissions want fuel t1 e1 st2
      | (r, st2) => (r, st2)
    | (.eagain, st1) =>
      match flush_completions fuel 1 t e st1 with
      | (.ok (t1, e1), st2) => flush_submissions want fuel t1 e1 st2
      | (r, st2) => (r, st2)
    | (.fatal, st1) => (.err, st1)

/-- `Reactor::flush`: flush submissions, then dispatch completions with
want 0.  The source passes the ORIGINAL `timeouts`/`etime` to
`flush_completions`, discarding the pair returned by `flush_submissions`. -/
def flush (fuel want t : Nat) (e : Bool) (st : RSt) : Res (Nat × Bool) × RSt :=
  match flush_submissions want fuel t e st with
  | (.ok _, st1) => flush_completions fuel 0 t e st1
  | (r, st1) => (r, st1)

/-- `Reactor::requires_reaping`: the outstanding-request counter is
non-zero. -/
def requires_reaping (st : RSt) : Bool := decide (0 < st.reqQueued)

/-- `Reactor::submit`: increment `req_queued`, stamp the entry's user data
with the request address, then push; a full ring yields a transient error
(the increment is NOT rolled back). -/
def submit (st : RSt) (sentry : Entry) (reqAddr : Nat) : Res Unit × RSt :=
  let st1 := { st with reqQueued := st.reqQueued + 1 }
  let stamped := { sentry with userData := reqAddr }
  match sqPush st1 stamped with
  | some st2 => (.ok (), st2)
  | none => (.err, st1)

/-- the timeout submission entry built in `run_for_ns`: `Timeout` opcode with
user-data 0.  (The source builds a `Timespec` and calls its by-value builder
methods `sec`/`nsec` discarding their results, so the submitted deadline
stays zeroed; no claim depends on the deadline value.) -/
def timeoutEntry : Entry := { opcode := OP_TIMEOUT, userData := 0 }

/-- the `while !etime` loop of `Reactor::run_for_ns`: bump the local timeout
counter, push a timeout submission (on a full ring: force-flush submissions,
retry the push once and panic if it fails again), then `flush(1)`. -/
def rfnLoop (ns tsSec tsNsec : Nat) : Nat → Nat → Bool → RSt → Res (Nat × Bool) × RSt
  | 0, _, _, st => (.div, st)
  | fuel + 1, t, e, st =>
    if e then (.ok (t, e), st)
    else
      let _deadline := (tsSec, tsNsec + ns)
      let t1 := t + 1
      match sqPush st timeoutEntry with
      | some st1 =>
        match flush fuel 1 t1 e st1 with
        | (.ok (t2, e2), st2) => rfnLoop ns tsSec tsNsec fuel t2 e2 st2
        | (r, st2) => (r, st2)
      | none =>
        match flush_submissions 0 fuel t1 e st with
        | (.ok (t2, e2), st1) =>
          match sqPush st1 timeoutEntry with
          | some st2 =>
            match flush fuel 1 t2 e2 st2 with
            | (.ok (t3, e3), st3) => rfnLoop ns tsSec tsNsec fuel t3 e3 st3
            | (r, st3) => (r, st3)
          | none => (.panic .pushRetryFailed, st1)
        | (r, st1) => (r, st1)

/-- the `while timeouts > 0` drain loop at the end of `run_for_ns`:
repeatedly `flush_completions(0, ..)` until the local timeout counter is
zero. -/
def rfnDrain : Nat → Nat → Bool → RSt → Res (Nat × Bool) × RSt
  | fuel, t, e, st =>
    match t with
    | 0 => (.ok (0, e), st)
    | _ + 1 =>
      match fuel with
      | 0 => (.div, st)
      | f + 1 =>
        match flush_completions f 0 t e st with
        | (.ok (t1, e1), st1) => rfnDrain f t1 e1 st1
        | (r, st1) => (r, st1)

/-- forget the payload of a result (the source returns `Ok(())`). -/
def resUnit {α : Type} : Res α → Res Unit
  | .ok _ => .ok ()
  | .err => .err
  | .panic p => .panic p
  | .div => .div

/-- `Reactor::run_for_ns(ns)`: read the monotonic clock, run the
timeout-submission loop until `etime`, then drain remaining timeout
markers. -/
def run_for_ns (fuel ns : Nat) (st : RSt) : Res Unit × RSt :=
  let tsSec := st.clockSec
  let tsNsec := st.clockNsec
  match rfnLoop ns tsSec tsNsec fuel 0 false st with
  | (.ok (t, e), st1) =>
    match rfnDrain fuel t e st1 with
    | (r, st2) => (resUnit r, st2)
  | (r, st1) => (resUnit r, st1)

/-- `Reactor::run(ns)`: `self.flush(0, 0, false)` with the io Result
discarded, then `run_for_ns(ns)` when `!self.requires_reaping()` and
`Ok(())` otherwise — i.e. the source blocks in `run_for_ns` exactly when the
outstanding-request counter is ZERO. -/
def run (fuel ns : Nat) (st : RSt) : Res Unit × RSt :=
  match flush fuel 0 0 false st with
  | (.panic p, st1) => (.panic p, st1)
  | (.div, st1) => (.div, st1)
  | (.ok _, st1) =>
    if !requires_reaping st1 then run_for_ns fuel ns st1 else (.ok (), st1)
  | (.err, st1) =>
    if !requires_reaping st1 then run_for_ns fuel ns st1 else (.ok (), st1)

/-- the `u64::MAX` offset used by the offset-less read/write constructors. -/
def U64MAX : Nat := 2 ^ 64 - 1

namespace raw

/-- `raw::read(fd, buf)` from `ops/io.rs`: a `Read` submission whose offset
is `u64::MAX` (buffer length is cast `as u32`). -/
def read (fd : Int) (bufAddr bufLen : Nat) : Entry :=
  { opcode := OP_READ, fd := fd, addr := bufAddr, len := bufLen % 2 ^ 32,
    offset := U64MAX, userData := 0 }

/-- `raw::read_at(fd, buf, offset)`: the `i64` offset goes through
`try_into::<u64>().unwrap()`, which panics (`none`) on a negative offset. -/
def read_at (fd : Int) (bufAddr bufLen : Nat) (offset : Int) : Option Entry :=
  if 0 ≤ offset then
    some { opcode := OP_READ, fd := fd, addr := bufAddr, len := bufLen % 2 ^ 32,
           offset := offset.toNat, userData := 0 }
  else none

/-- `raw::write(fd, buf)`: a `Write` submission whose offset is
`u64::MAX`. -/
def write (fd : Int) (bufAddr bufLen : Nat) : Entry :=
  { opcode := OP_WRITE, fd := fd, addr := bufAddr, len := bufLen % 2 ^ 32,
    offset := U64MAX, userData := 0 }

/-- `raw::write_at(fd, buf, offset)`: positional write with
`try_into::<u64>().unwrap()` on the offset. -/
def write_at (fd : Int) (bufAddr bufLen : Nat) (offset : Int) : Option Entry :=
  if 0 ≤ offset then
    some { opcode := OP_WRITE, fd := fd, addr := bufAddr, len := bufLen % 2 ^ 32,
           offset := offset.toNat, userData := 0 }
  else none

end raw

/-- an operation future's request (`ReactorRequest`): prebuilt submission
entry, return slot, waker slot.  Wakers are opaque; they are modelled by an
identifier. -/
structure OpReq where
  sentry : Entry
  returnVal : Option Int
  waker : Option Nat
  deriving DecidableEq

/-- result of polling an operation future. -/
inductive PollOut
  | readyOk (v : Int)
  | readyErr (code : Int)
  | pending
  deriving DecidableEq

/-- the `poll` body generated by `derive_future` in `reika-macros`: a
populated return slot is translated to ready (OS error of code `-v` for
negative `v`, success `v` otherwise); an empty slot stores the context waker,
attempts submission, and reports pending — with an immediate self-wake
(`ctx.waker().wake_by_ref()`, the final `Bool`) when the submission push
fails. -/
def opPoll (st : RSt) (req : OpReq) (ctxWaker : Nat) (reqAddr : Nat) :
    PollOut × OpReq × RSt × Bool :=
  match req.returnVal with
  | some v =>
    if v < 0 then (.readyErr (-v), req, st, false)
    else (.readyOk v, req, st, false)
  | none =>
    let req1 := { req with waker := some ctxWaker }
    let req2 := { req1 with sentry := { req1.sentry with userData := reqAddr } }
    match submit st req1.sentry reqAddr with
    | (.ok _, st1) => (.pending, req2, st1, false)
    | (_, st1) => (.pending, req2, st1, true)

/-- count the completion-dispatch events in a trace. -/
def dispatchCount (tr : List Event) : Nat :=
  tr.countP fun ev => match ev with | .dispatch _ _ => true | _ => false

/-- count the timeout-marker pushes (user-data 0) in a trace. -/
def push0Count (tr : List Event) : Nat :=
  tr.countP fun ev => match ev with | .push 0 _ => true | _ => false

/-- count the `submit_and_wait(1)` calls in a trace. -/
def saw1Count (tr : List Event) : Nat :=
  tr.countP fun ev => match ev with | .sawCall 1 => true | _ => false

/-- number of timeout markers (user-data 0) in a batch of CQEs. -/
def markerCount (cqes : List Cqe) : Nat :=
  cqes.countP fun cqe => decide (cqe.userData = 0)

/-- total number of timeout markers in the whole completion oracle. -/
def markersTotal (batches : List (List Cqe)) : Nat :=
  (batches.map markerCount).sum

/-- the action trace of `st'` extends that of `st`: every reactor operation
only appends to the trace. -/
def TraceExt (st st' : RSt) : Prop := ∃ d, st'.trace = st.trace ++ d

end Reactor

namespace Exec

/-- state of one intrusive LIFO queue (`TaskQueue` from
`async-executor/src/queue.rs`): the raw head pointer (`0` is null) and each
task header's embedded `next` link (`Option<TaskRef>`).  Task headers live at
nonzero addresses. -/
structure QState where
  head : Nat
  next : Nat → Option Nat

/-- `TaskQueue::enqueue`: write the old head into the task's link slot and
make the task the new head. -/
def enqueue (q : QState) (t : Nat) : QState :=
  { head := t,
    next := fun x => if x = t then (if q.head = 0 then none else some q.head) else q.next x }

/-- write one task's link slot. -/
def setNext (q : QState) (t : Nat) (v : Option Nat) : QState :=
  { q with next := fun x => if x = t then v else q.next x }

/-- the walk inside `TaskQueue::drain`: while the cursor is non-null, read
the node's next link, clear it, hand the node to the visit callback (which
may mutate the queue and the auxiliary state), and move the cursor to the
read link.  Fuel bounds the walk; `none` is divergence (a cyclic chain) or a
callback failure. -/
def drainAux {σ : Type} (visit : Nat → QState × σ → Option (QState × σ)) :
    Nat → QState × σ → Option Nat → Option (QState × σ)
  | 0, s, cur =>
    match cur with
    | none => some s
    | some _ => none
  | fuel + 1, s, cur =>
    match cur with
    | none => some s
    | some t =>
      let nxt := s.1.next t
      let s1 := (setNext s.1 t none, s.2)
      match visit t s1 with
      | some s2 => drainAux visit fuel s2 nxt
      | none => none

/-- `TaskQueue::drain`: swap the head with null, then walk the old chain. -/
def drain {σ : Type} (visit : Nat → QState × σ → Option (QState × σ))
    (fuel : Nat) (q : QState) (s : σ) : Option (QState × σ) :=
  let cur := if q.head = 0 then none else some q.head
  drainAux visit fuel ({ q with head := 0 }, s) cur

/-- a fresh queue: null head, all link slots empty. -/
def emptyQ : QState := { head := 0, next := fun _ => none }

/-- enqueue a list of tasks in order. -/
def enqueueAll (q : QState) (ts : List Nat) : QState := ts.foldl enqueue q

/-- a passive visit callback that records each visited task together with the
value of its link slot at visit time. -/
def visitCollect : Nat → QState × List (Nat × Option Nat) → Option (QState × List (Nat × Option Nat)) :=
  fun t s => some (s.1, s.2 ++ [(t, s.1.next t)])

/-- the enqueue-then-drain experiment used by the queue claim: enqueue `ts`
into a fresh queue, then drain with the recording callback. -/
def drainExperiment (ts : List Nat) : Option (QState × List (Nat × Option Nat)) :=
  drain visitCollect ts.length (enqueueAll emptyQ ts) []

/-- the cursor `cur` reaches exactly the tasks `L`, in order, by following
the link slots of `next`, ending at the null sentinel. -/
def chainTo (next : Nat → Option Nat) : Option Nat → List Nat → Prop
  | cur, [] => cur = none
  | cur, t :: l => cur = some t ∧ chainTo next (next t) l

/-- the queue head as an optional cursor (`0` is the null sentinel). -/
def headOpt (q : QState) : Option Nat := if q.head = 0 then none else some q.head

/-- effects a future's `poll` can have on the runtime: waking a task
(re-enqueue, the wake path) or spawning a task (`spawn_task`). -/
inductive PollAct
  | wake (t : Nat)
  | spawn (t : Nat)

/-- outcome of polling one future: whether it reported ready, plus the
wake/spawn calls it made, in order. -/
structure PollEff where
  finished : Bool
  acts : List PollAct

/-- the parts of a `TaskHeader` the run loop consults: whether `poll_fn` and
`task_pool_finalizer_fn` are set. -/
structure HeaderInfo where
  hasPoll : Bool
  hasFinalizer : Bool

/-- executor state (`Executor` from `async-executor/src/lib.rs`): the run
queue, the live-task counter `spawned`, and an opaque world `w` holding
everything else the polled futures touch (pools, reactor, ...). -/
structure ExecSt (W : Type) where
  q : QState
  spawned : Nat
  w : W

/-- `Executor::spawn_task`: increment the live-task counter, then enqueue. -/
def spawn_task {W : Type} (st : ExecSt W) (t : Nat) : ExecSt W :=
  { st with spawned := st.spawned + 1, q := enqueue st.q t }

/-- `Executor::enqueue` as reached from `wake_task`: enqueue only, the
counter is untouched. -/
def wakeEnqueue {W : Type} (st : ExecSt W) (t : Nat) : ExecSt W :=
  { st with q := enqueue st.q t }

/-- apply one wake/spawn call made during a poll: a wake re-enqueues, a
spawn increments the counter and enqueues. -/
def applyAct : QState × Nat → PollAct → QState × Nat
  | (q, n), .wake t => (enqueue q t, n)
  | (q, n), .spawn t => (enqueue q t, n + 1)

/-- number of spawn calls in a poll's action list. -/
def countSpawnActs (acts : List PollAct) : Nat :=
  acts.countP fun a => match a with | .spawn _ => true | _ => false

/-- the drain callback inside `Executor::run`: if the header has a poll
thunk, poll the future (oracle `pollStep`, which also yields the wake/spawn
calls the poll makes); when the poll reports ready, invoke the finalizer (if
set, oracle `finStep`) and decrement the live-task counter.  The decrement
is an unchecked `u64` subtraction; hitting zero beforehand is modelled as
`none`. -/
def runVisit {W : Type} (headers : Nat → HeaderInfo)
    (pollStep : W → Nat → W × PollEff) (finStep : W → Nat → W) :
    Nat → QState × (Nat × W) → Option (QState × (Nat × W)) :=
  fun t s =>
    if (headers t).hasPoll then
      let pw := pollStep s.2.2 t
      let qn := pw.2.acts.foldl applyAct (s.1, s.2.1)
      if pw.2.finished then
        let w2 := if (headers t).hasFinalizer then finStep pw.1 t else pw.1
        match qn.2 with
        | 0 => none
        | m + 1 => some (qn.1, (m, w2))
      else some (qn.1, (qn.2, pw.1))
    else some s

/-- one iteration of `Executor::run`: drain the run queue polling every
task, then invoke the post-drain hook `pd`. -/
def runIteration {W : Type} (headers : Nat → HeaderInfo)
    (pollStep : W → Nat → W × PollEff) (finStep : W → Nat → W)
    (pd : ExecSt W → ExecSt W) (df : Nat) (st : ExecSt W) : Option (ExecSt W) :=
  match drain (runVisit headers pollStep finStep) df st.q (st.spawned, st.w) with
  | some s => some (pd { q := s.1, spawned := s.2.1, w := s.2.2 })
  | none => none

/-- the outer loop of `Executor::run`: iterate; break when the live-task
counter is zero after the post-drain hook. -/
def runLoop {W : Type} (headers : Nat → HeaderInfo)
    (pollStep : W → Nat → W × PollEff) (finStep : W → Nat → W)
    (pd : ExecSt W → ExecSt W) (df : Nat) : Nat → ExecSt W → Option (ExecSt W)
  | 0, _ => none
  | fuel + 1, st =>
    match runIteration headers pollStep finStep pd df st with
    | some st1 =>
      if st1.spawned = 0 then some st1
      else runLoop headers pollStep finStep pd df fuel st1
    | none => none

end Exec

namespace Pool

/-- the pool-relevant fields of a `TaskHeader`: the free-list link
(`task_pool_queue_item.next`), the storage back-pointer, whether the poll
thunk, finalizer thunk and pool pointer are installed, and whether a future
value currently occupies the slot. -/
structure PHeader where
  poolNext : Option Nat
  storagePtr : Nat
  pollSet : Bool
  finalizerSet : Bool
  poolPtr : Nat
  futureWritten : Bool
  deriving DecidableEq

/-- `TaskStorage::new()`: everything null/absent. -/
def PHeader.init : PHeader :=
  { poolNext := none, storagePtr := 0, pollSet := false, finalizerSet := false,
    poolPtr := 0, futureWritten := false }

/-- a `TaskPool<F, N>`: capacity, the header of each storage slot (slot `i`
lives at address `i + 1`; address `0` is null), the high-water index
`exhaust_list_cnt`, and the free-list head pointer. -/
structure PoolSt where
  cap : Nat
  slots : List PHeader
  exhaustListCnt : Nat
  freeHead : Nat
  deriving DecidableEq

/-- dereference a task-header pointer; null or out-of-range is a crash. -/
def readHdr (p : PoolSt) (ptr : Nat) : Except Unit PHeader :=
  if ptr = 0 then .error ()
  else
    match p.slots.get? (ptr - 1) with
    | some h => .ok h
    | none => .error ()

/-- write through a task-header pointer; null or out-of-range is a crash. -/
def writeHdr (p : PoolSt) (ptr : Nat) (h : PHeader) : Except Unit PoolSt :=
  if ptr = 0 then .error ()
  else if ptr - 1 < p.slots.length then .ok { p with slots := p.slots.set (ptr - 1) h }
  else .error ()

/-- the model address of the pool itself (`self as *const _`); only its
non-nullness matters. -/
def poolAddr : Nat := 1

/-- `TaskFreeList::enqueue`: write the old head into the task's free-list
link and make the task the new head. -/
def flEnqueue (p : PoolSt) (taskPtr : Nat) : Except Unit PoolSt :=
  (readHdr p taskPtr).bind fun h =>
    (writeHdr p taskPtr
      { h with poolNext := if p.freeHead = 0 then none else some p.freeHead }).bind fun p1 =>
      .ok { p1 with freeHead := taskPtr }

/-- `TaskFreeList::dequeue`.  Source bug kept as-is: `NonNull::new` is
applied to `self.head.get()` — the pointer TO the head cell, which is never
null — instead of to the head value, so the `Some` branch is taken
unconditionally; `head.header()` then dereferences the head value, which is
null when the free list is empty (a crash), instead of returning `None`. -/
def dequeue (p : PoolSt) : Except Unit (Option Nat × PoolSt) :=
  let head : Option Nat := some p.freeHead
  match head with
  | some ptr =>
    (readHdr p ptr).bind fun h =>
      match h.poolNext with
      | some nh => .ok (some ptr, { p with freeHead := nh })
      | none => .ok (some ptr, { p with freeHead := 0 })
  | none => .ok (none, p)

/-- `TaskPool::prepare_task`: claim the next slot while the high-water index
is below capacity, otherwise pop the free list; on success write the future
into the slot and install the poll thunk, finalizer thunk, pool pointer and
storage back-pointer. -/
def prepare_task (p : PoolSt) : Except Unit (Option Nat × PoolSt) :=
  let step1 : Except Unit (Option Nat × PoolSt) :=
    if p.exhaustListCnt < p.cap then
      .ok (some (p.exhaustListCnt + 1), { p with exhaustListCnt := p.exhaustListCnt + 1 })
    else
      (dequeue p).bind fun r =>
        match r.1 with
        | some taskPtr =>
          (readHdr r.2 taskPtr).bind fun h =>
            if h.storagePtr = 0 then .error ()
            else .ok (some h.storagePtr, r.2)
        | none => .ok (none, r.2)
  step1.bind fun r =>
    match r.1 with
    | some sPtr =>
      (readHdr r.2 sPtr).bind fun h =>
        (writeHdr r.2 sPtr
          { h with futureWritten := true, storagePtr := sPtr, pollSet := true,
                   poolPtr := poolAddr, finalizerSet := true }).bind fun p2 =>
          .ok (some sPtr, p2)
    | none => .ok (none, r.2)

/-- `TaskPool::finalize`: push the finished task onto the free list. -/
def finalize (p : PoolSt) (taskPtr : Nat) : Except Unit PoolSt :=
  flEnqueue p taskPtr

/-- a fresh pool of capacity `n`. -/
def mkPool (n : Nat) : PoolSt :=
  { cap := n, slots := List.replicate n PHeader.init, exhaustListCnt := 0, freeHead := 0 }

/-- two consecutive prepares on a capacity-1 pool whose single task never
completed (the free list stays empty). -/
def secondPrepare : Except Unit (Option Nat × PoolSt) :=
  (prepare_task (mkPool 1)).bind fun r => prepare_task r.2

/-- observe the allocation outcome of a pool operation: `none` is a crash,
`some r` the returned optional task pointer. -/
def resultTag (r : Except Unit (Option Nat × PoolSt)) : Option (Option Nat) :=
  match r with
  | .ok v => some v.1
  | .error _ => none

/-- prepare twice on a capacity-2 pool (both prepares claim fresh slots). -/
def twoPrepares : Except Unit (Option Nat × PoolSt) :=
  (prepare_task (mkPool 2)).bind fun r => prepare_task r.2

/-- prepare, finalize the task, prepare again on a capacity-1 pool: the
second prepare pops the free list. -/
def reuseExperiment : Except Unit (Option Nat × PoolSt) :=
  (prepare_task (mkPool 1)).bind fun r =>
    (finalize r.2 1).bind fun p => prepare_task p

end Pool

/-! Concrete reactor states used by the closed evaluation theorems and the
witnesses. -/

/-- a reactor with one outstanding request and nothing else pending. -/
def stOneOutstanding : Reactor.RSt :=
  { sqCap := 4, sq := [], reqQueued := 1, saw := [], batches := [],
    clockSec := 0, clockNsec := 0, trace := [] }

/-- a reactor with no outstanding requests whose completion oracle delivers
an `ETIME` timeout marker on the second ring read. -/
def stNoneOutstanding : Reactor.RSt :=
  { sqCap := 4, sq := [], reqQueued := 0, saw := [], batches := [[], [⟨0, -62⟩]],
    clockSec := 0, clockNsec := 0, trace := [] }

/-- a reactor whose completion oracle delivers one non-timeout completion on
each of two successive ring reads (user data 7 and 8). -/
def stTwoBatches : Reactor.RSt :=
  { sqCap := 4, sq := [], reqQueued := 5, saw := [], batches := [[⟨7, 0⟩], [⟨8, 0⟩]],
    clockSec := 0, clockNsec := 0, trace := [] }

/-- a reactor whose completion oracle delivers a single non-timeout
completion (user data 7) on the first ring read. -/
def stOneCompletion : Reactor.RSt :=
  { sqCap := 4, sq := [], reqQueued := 1, saw := [], batches := [[⟨7, 0⟩]],
    clockSec := 0, clockNsec := 0, trace := [] }

/-- a reactor whose completion oracle has a pending `ETIME` timeout
marker. -/
def stMarkerPending : Reactor.RSt :=
  { sqCap := 4, sq := [], reqQueued := 0, saw := [], batches := [[⟨0, -62⟩]],
    clockSec := 3, clockNsec := 9, trace := [] }

/-- a reactor whose submission ring is full (capacity 0). -/
def stRingFull : Reactor.RSt :=
  { sqCap := 0, sq := [], reqQueued := 3, saw := [], batches := [],
    clockSec := 0, clockNsec := 0, trace := [] }

/-- an operation request whose return slot holds the failure value `-5`. -/
def reqFailed : Reactor.OpReq :=
  { sentry := { opcode := Reactor.OP_READ }, returnVal := some (-5), waker := none }

/-- an operation request whose return slot holds the success value `17`. -/
def reqDone : Reactor.OpReq :=
  { sentry := { opcode := Reactor.OP_READ }, returnVal := some 17, waker := none }

/-- an operation request whose return slot is still empty. -/
def reqFresh : Reactor.OpReq :=
  { sentry := { opcode := Reactor.OP_READ }, returnVal := none, waker := none }

/-! Concrete executor fixtures for the witnesses. -/

/-- headers of the witness world: every task has a poll thunk and no
finalizer. -/
def hdrsW : Nat → Exec.HeaderInfo := fun _ => { hasPoll := true, hasFinalizer := false }

/-- witness poll oracle: every poll reports ready and makes no wake/spawn
calls. -/
def pollStepW : Unit → Nat → Unit × Exec.PollEff := fun w _ => (w, { finished := true, acts := [] })

/-- witness finalizer oracle. -/
def finStepW : Unit → Nat → Unit := fun w _ => w

/-- witness executor start state: one task spawned onto a fresh executor. -/
def exStW : Exec.ExecSt Unit := Exec.spawn_task { q := Exec.emptyQ, spawned := 0, w := () } 1

/-! ## Theorems -/

/-- Claim C1 (code bug): `prepare_task` does claim fresh slots in order while
the high-water index is below N, and does pop the free list when a finalized
task is available; but when all N slots are claimed and the free list is
empty it does NOT return `none` — `TaskFreeList::dequeue` null-checks the
address of the head cell instead of the head value, takes the `Some` branch
unconditionally, and dereferences a null task-header pointer (a crash,
modelled as `Except.error`). -/
theorem c1_prepare_on_exhausted_pool_crashes :
    Pool.resultTag (Pool.prepare_task (Pool.mkPool 2)) = some (some 1) ∧
    Pool.resultTag Pool.twoPrepares = some (some 2) ∧
    Pool.resultTag Pool.reuseExperiment = some (some 1) ∧
    Pool.resultTag Pool.secondPrepare = none := by
  decide

/-- Claim C2 (code bug): with one outstanding request, `run` returns
immediately (no timeout submission is ever pushed, so `run_for_ns` was not
entered), and with zero outstanding requests `run` does enter `run_for_ns`
(a timeout submission is pushed) — the opposite of the claimed
"call `run_for_ns` iff the outstanding counter is non-zero". -/
theorem c2_run_condition_is_inverted :
    (Reactor.run 6 1000 stOneOutstanding).1 = .ok () ∧
    (Reactor.run 6 1000 stOneOutstanding).2.reqQueued = 1 ∧
    Reactor.push0Count (Reactor.run 6 1000 stOneOutstanding).2.trace = 0 ∧
    (Reactor.run 6 1000 stNoneOutstanding).1 = .ok () ∧
    1 ≤ Reactor.push0Count (Reactor.run 6 1000 stNoneOutstanding).2.trace := by
  decide

/-- Claim C4, counterexample: on a full submission ring `submit` returns the
transient error, yet the outstanding-request counter is NOT left unchanged —
it was already incremented. -/
theorem c4_counterexample :
    (Reactor.submit stRingFull { opcode := Reactor.OP_READ } 5).1 = .err ∧
    (Reactor.submit stRingFull { opcode := Reactor.OP_READ } 5).2.reqQueued ≠
      stRingFull.reqQueued := by
  decide

/-- Claim C4, amended: `submit` increments the outstanding-request counter
unconditionally, before attempting the push; on push failure a transient
error is returned with the increment not rolled back, and the push fails
exactly when the ring is full. -/
theorem c4_submit_increments_unconditionally (st : Reactor.RSt)
    (sentry : Reactor.Entry) (a : Nat) :
    (Reactor.submit st sentry a).2.reqQueued = st.reqQueued + 1 ∧
    ((Reactor.submit st sentry a).1 = .err ↔ ¬ st.sq.length < st.sqCap) ∧
    ((Reactor.submit st sentry a).1 = .ok () ↔ st.sq.length < st.sqCap) := by
  by_cases h : st.sq.length < st.sqCap <;>
    simp [Reactor.submit, Reactor.sqPush, h]

/-- Claim C4, witness for the amended theorem at a concrete input. -/
theorem c4_witness :
    (Reactor.submit stRingFull { opcode := Reactor.OP_READ } 5).2.reqQueued =
      stRingFull.reqQueued + 1 := by
  exact (c4_submit_increments_unconditionally stRingFull { opcode := Reactor.OP_READ } 5).1

/-- Claim C9: the offset-less `raw::read` and `raw::write` constructors carry
offset `2^64 - 1`, while `raw::read_at` and `raw::write_at` carry the
caller-supplied non-negative offset. -/
theorem c9_read_write_offsets (fd : Int) (a l : Nat) (off : Int) (hoff : 0 ≤ off) :
    (Reactor.raw.read fd a l).offset = 2 ^ 64 - 1 ∧
    (Reactor.raw.write fd a l).offset = 2 ^ 64 - 1 ∧
    (Reactor.raw.read_at fd a l off).map (fun en => en.offset) = some off.toNat ∧
    (Reactor.raw.write_at fd a l off).map (fun en => en.offset) = some off.toNat := by
  refine ⟨rfl, rfl, ?_, ?_⟩ <;>
    simp [Reactor.raw.read_at, Reactor.raw.write_at, hoff]

/-- Claim C9, witness at a concrete file descriptor, buffer and offset. -/
theorem c9_witness :
    (Reactor.raw.read 3 100 4096).offset = 2 ^ 64 - 1 ∧
    (Reactor.raw.write 3 100 4096).offset = 2 ^ 64 - 1 ∧
    (Reactor.raw.read_at 3 100 4096 77).map (fun en => en.offset) = some 77 ∧
    (Reactor.raw.write_at 3 100 4096 77).map (fun en => en.offset) = some 77 := by
  exact c9_read_write_offsets 3 100 4096 77 (by decide)

/-- Claim C6: the generated `poll` returns ready with the OS error of code
`-v` when the return slot holds a negative `v`, ready success `v` when it
holds a non-negative `v`, and on an empty slot stores the context waker,
attempts submission, reports pending, and self-wakes exactly when the
submission push fails (full ring). -/
theorem c6_op_poll_contract (st : Reactor.RSt) (req : Reactor.OpReq) (cw a : Nat) :
    (∀ v : Int, req.returnVal = some v → v < 0 →
      Reactor.opPoll st req cw a = (.readyErr (-v), req, st, false)) ∧
    (∀ v : Int, req.returnVal = some v → 0 ≤ v →
      Reactor.opPoll st req cw a = (.readyOk v, req, st, false)) ∧
    (req.returnVal = none →
      (Reactor.opPoll st req cw a).1 = .pending ∧
      (Reactor.opPoll st req cw a).2.1.waker = some cw ∧
      ((Reactor.opPoll st req cw a).2.2.2 = true ↔ ¬ st.sq.length < st.sqCap)) := by
  refine ⟨?_, ?_, ?_⟩
  · intro v hv hneg
    simp [Reactor.opPoll, hv, hneg, not_le.mpr hneg]
  · intro v hv hpos
    simp [Reactor.opPoll, hv, not_lt.mpr hpos]
  · intro hnone
    by_cases h : st.sq.length < st.sqCap <;>
      simp [Reactor.opPoll, hnone, Reactor.submit, Reactor.sqPush, h]

/-- Claim C6, witness: the three poll behaviours at concrete requests (full
and non-full rings for the pending case). -/
theorem c6_witness :
    Reactor.opPoll stOneOutstanding reqFailed 9 7 = (.readyErr 5, reqFailed, stOneOutstanding, false) ∧
    Reactor.opPoll stOneOutstanding reqDone 9 7 = (.readyOk 17, reqDone, stOneOutstanding, false) ∧
    (Reactor.opPoll stOneOutstanding reqFresh 9 7).2.1.waker = some 9 ∧
    (Reactor.opPoll stOneOutstanding reqFresh 9 7).2.2.2 = false ∧
    (Reactor.opPoll stRingFull reqFresh 9 7).2.2.2 = true := by
  refine ⟨?_, ?_, ?_, ?_, ?_⟩
  · exact (c6_op_poll_contract stOneOutstanding reqFailed 9 7).1 (-5) rfl (by decide)
  · exact (c6_op_poll_contract stOneOutstanding reqDone 9 7).2.1 17 rfl (by decide)
  · exact ((c6_op_poll_contract stOneOutstanding reqFresh 9 7).2.2 rfl).2.1
  · have h := ((c6_op_poll_contract stOneOutstanding reqFresh 9 7).2.2 rfl).2.2
    decide
  · have h := ((c6_op_poll_contract stRingFull reqFresh 9 7).2.2 rfl).2.2
    exact h.mpr (by decide)

namespace Reactor

lemma dispatchCount_append (tr d : List Event) :
    dispatchCount (tr ++ d) = dispatchCount tr + dispatchCount d := by
  simp [dispatchCount, List.countP_append]

lemma push0Count_append (tr d : List Event) :
    push0Count (tr ++ d) = push0Count tr + push0Count d := by
  simp [push0Count, List.countP_append]

lemma saw1Count_append (tr d : List Event) :
    saw1Count (tr ++ d) = saw1Count tr + saw1Count d := by
  simp [saw1Count, List.countP_append]

lemma dispatchCount_single (u : Nat) (r : Int) :
    dispatchCount [Event.dispatch u r] = 1 := rfl

lemma push0Count_single (u : Nat) (r : Int) :
    push0Count [Event.dispatch u r] = 0 := rfl

lemma saw1Count_single (u : Nat) (r : Int) :
    saw1Count [Event.dispatch u r] = 0 := rfl

lemma readCqes_reqQueued (st : RSt) : (readCqes st).2.reqQueued = st.reqQueued := by
  cases h : st.batches <;> simp [readCqes, h]

lemma readCqes_trace (st : RSt) : (readCqes st).2.trace = st.trace := by
  cases h : st.batches <;> simp [readCqes, h]

/-- accounting for one pass of the completion for-loop: `collected` grows by
the number of dispatched (non-timeout) entries, which is also the number of
`dispatch` events appended; no push or `submit_and_wait` events appear. -/
lemma processCqes_spec : ∀ (cqes : List Cqe) (t : Nat) (e : Bool) (c : Nat) (tr : List Event)
    (t1 : Nat) (e1 : Bool) (c1 : Nat) (tr1 : List Event),
    processCqes cqes t e c tr = .ok (t1, e1, c1, tr1) →
    c ≤ c1 ∧ dispatchCount tr1 + c = dispatchCount tr + c1 ∧
      push0Count tr1 = push0Count tr ∧ saw1Count tr1 = saw1Count tr
  | [], t, e, c, tr, t1, e1, c1, tr1 => by
    intro h
    simp only [processCqes, Except.ok.injEq, Prod.mk.injEq] at h
    obtain ⟨-, -, hc, htr⟩ := h
    subst hc htr
    omega
  | cqe :: rest, t, e, c, tr, t1, e1, c1, tr1 => by
    intro h
    simp only [processCqes] at h
    by_cases hu : cqe.userData = 0
    · simp only [hu, if_true] at h
      cases t with
      | zero => exact absurd h (by simp)
      | succ t' =>
        exact processCqes_spec rest t' _ c tr t1 e1 c1 tr1 h
    · simp only [hu, if_false] at h
      have ih := processCqes_spec rest t e (c + 1) (tr ++ [.dispatch cqe.userData cqe.result])
        t1 e1 c1 tr1 h
      obtain ⟨h1, h2, h3, h4⟩ := ih
      rw [dispatchCount_append, dispatchCount_single] at h2
      rw [push0Count_append, push0Count_single] at h3
      rw [saw1Count_append, saw1Count_single] at h4
      refine ⟨by omega, by omega, by omega, by omega⟩

/-- with at most `t` timeout markers in the batch, the for-loop pass cannot
underflow the timeout counter; it returns with the counter reduced by the
number of markers. -/
lemma processCqes_markers : ∀ (cqes : List Cqe) (t : Nat) (e : Bool) (c : Nat) (tr : List Event),
    markerCount cqes ≤ t →
    ∃ e1 c1 tr1, processCqes cqes t e c tr = .ok (t - markerCount cqes, e1, c1, tr1)
  | [], t, e, c, tr => by
    intro _
    exact ⟨e, c, tr, by simp [processCqes, markerCount]⟩
  | cqe :: rest, t, e, c, tr => by
    intro hm
    by_cases hu : cqe.userData = 0
    · have hmc : markerCount (cqe :: rest) = markerCount rest + 1 := by
        simp [markerCount, List.countP_cons, hu]
      cases t with
      | zero => omega
      | succ t' =>
        have hrest : markerCount rest ≤ t' := by omega
        obtain ⟨e1, c1, tr1, hp⟩ :=
          processCqes_markers rest t' (if -cqe.result = ETIME then true else e) c tr hrest
        refine ⟨e1, c1, tr1, ?_⟩
        have heq : t' + 1 - markerCount (cqe :: rest) = t' - markerCount rest := by
          rw [hmc]
          omega
        rw [heq]
        simp only [processCqes, hu, if_true]
        exact hp
    · have hmc : markerCount (cqe :: rest) = markerCount rest := by
        simp [markerCount, List.countP_cons, hu]
      obtain ⟨e1, c1, tr1, hp⟩ :=
        processCqes_markers rest t e (c + 1) (tr ++ [.dispatch cqe.userData cqe.result]) (by omega)
      refine ⟨e1, c1, tr1, ?_⟩
      simp only [processCqes, hu, if_false]
      rw [hp, hmc]

end Reactor

namespace Reactor

lemma markersTotal_cons (b : List Cqe) (rest : List (List Cqe)) :
    markersTotal (b :: rest) = markerCount b + markersTotal rest := by
  simp [markersTotal]

/-- for `want ≤ 1` every non-final pass of the completion loop collects
nothing, so the cumulative subtraction is harmless: on a successful return
the outstanding counter has dropped by exactly the number of dispatched
completions (`c'`), which also equals the number of dispatch events added,
and the loop only returned once `want ≤ collected`. -/
lemma fcLoop_want_le_one (want : Nat) (hw : want ≤ 1) :
    ∀ (fuel t : Nat) (e : Bool) (st : RSt) (t' : Nat) (e' : Bool) (c' : Nat),
    (fcLoop want fuel t e 0 st).1 = .ok (t', e', c') →
    (fcLoop want fuel t e 0 st).2.reqQueued + c' = st.reqQueued ∧
    dispatchCount (fcLoop want fuel t e 0 st).2.trace = dispatchCount st.trace + c' ∧
    want ≤ c'
  | 0, t, e, st, t', e', c' => by
    intro h
    simp [fcLoop] at h
  | fuel + 1, t, e, st, t', e', c' => by
    intro h
    rcases hrc : readCqes st with ⟨cqes, st1⟩
    have hrq : st1.reqQueued = st.reqQueued := by
      have h' := readCqes_reqQueued st
      rw [hrc] at h'
      exact h'
    have htr : st1.trace = st.trace := by
      have h' := readCqes_trace st
      rw [hrc] at h'
      exact h'
    simp only [fcLoop, hrc] at h ⊢
    cases hp : processCqes cqes t e 0 st1.trace with
    | error p =>
      simp [hp] at h
    | ok v =>
      rcases v with ⟨t1, e1, c1, tr1⟩
      simp only [hp] at h ⊢
      obtain ⟨-, hdisp, -, -⟩ :=
        processCqes_spec cqes t e 0 st1.trace t1 e1 c1 tr1 hp
      rw [htr] at hdisp
      by_cases hle : c1 ≤ st1.reqQueued
      · rw [if_pos hle] at h ⊢
        by_cases hwc : want ≤ c1
        · rw [if_pos hwc] at h ⊢
          dsimp only at h ⊢
          simp only [Res.ok.injEq, Prod.mk.injEq] at h
          obtain ⟨-, -, hc⟩ := h
          subst hc
          rw [hrq]
          refine ⟨by omega, by omega, hwc⟩
        · rw [if_neg hwc] at h ⊢
          have hc0 : c1 = 0 := by omega
          subst hc0
          obtain ⟨ih1, ih2, ih3⟩ := fcLoop_want_le_one want hw fuel t1 e1 _ t' e' c' h
          dsimp only at ih1 ih2
          refine ⟨by omega, by omega, ih3⟩
      · rw [if_neg hle] at h
        dsimp only at h
        simp at h

/-- with at least as many pending timeout-counter units as there are timeout
markers in the completion oracle, the dispatch loop never hits the
timeout-counter underflow. -/
lemma fcLoop_no_timeout_underflow (want : Nat) :
    ∀ (fuel t : Nat) (e : Bool) (c : Nat) (st : RSt),
    markersTotal st.batches ≤ t →
    (fcLoop want fuel t e c st).1 ≠ .panic .timeoutUnderflow
  | 0, t, e, c, st => by
    intro _hm
    simp [fcLoop]
  | fuel + 1, t, e, c, st => by
    intro hm
    cases hb : st.batches with
    | nil =>
      have hrc : readCqes st = ([], st) := by
        simp [readCqes, hb]
      simp only [fcLoop, hrc]
      have hp : processCqes [] t e c st.trace = .ok (t, e, c, st.trace) := rfl
      simp only [hp]
      by_cases hle : c ≤ st.reqQueued
      · rw [if_pos hle]
        by_cases hwc : want ≤ c
        · rw [if_pos hwc]
          simp
        · rw [if_neg hwc]
          refine fcLoop_no_timeout_underflow want fuel t e c _ ?_
          simp [hb, markersTotal]
      · rw [if_neg hle]
        simp
    | cons b rest =>
      have hrc : readCqes st = (b, { st with batches := rest }) := by
        simp [readCqes, hb]
      have hmb : markerCount b ≤ t := by
        rw [hb, markersTotal_cons] at hm
        omega
      obtain ⟨e1, c1, tr1, hp⟩ := processCqes_markers b t e c st.trace hmb
      simp only [fcLoop, hrc]
      simp only [hp]
      by_cases hle : c1 ≤ st.reqQueued
      · rw [if_pos hle]
        by_cases hwc : want ≤ c1
        · rw [if_pos hwc]
          simp
        · rw [if_neg hwc]
          refine fcLoop_no_timeout_underflow want fuel (t - markerCount b) e1 c1 _ ?_
          have hrest : markersTotal rest ≤ t - markerCount b := by
            rw [hb, markersTotal_cons] at hm
            omega
          simpa using hrest
      · rw [if_neg hle]
        simp

end Reactor

/-- Claim C3, counterexample: with `want = 2` and the two dispatched
completions arriving on successive ring reads, the cumulative `collected` is
subtracted twice — the outstanding counter drops from 5 to 2 although only
2 completions were dispatched, so it did NOT decrease by exactly the number
of dispatched completions. -/
theorem c3_counterexample :
    (Reactor.flush_completions 3 2 0 false stTwoBatches).1 = .ok (0, false) ∧
    Reactor.dispatchCount (Reactor.flush_completions 3 2 0 false stTwoBatches).2.trace = 2 ∧
    (Reactor.flush_completions 3 2 0 false stTwoBatches).2.reqQueued ≠
      stTwoBatches.reqQueued - 2 := by
  decide

/-- Claim C3, amended: for every call with `want ≤ 1` — the only values the
crate ever passes (`flush` uses 0, the `EBUSY`/`EAGAIN` path uses 1) — a
successful return of `flush_completions` leaves the outstanding counter
decreased by exactly the number of non-timeout completions dispatched during
the call, and the loop runs until at least `want` completions were
collected. -/
theorem c3_decrement_matches_dispatch (fuel want t : Nat) (e : Bool) (st : Reactor.RSt)
    (t' : Nat) (e' : Bool) (hw : want ≤ 1)
    (h : (Reactor.flush_completions fuel want t e st).1 = .ok (t', e')) :
    (Reactor.flush_completions fuel want t e st).2.reqQueued +
        Reactor.dispatchCount (Reactor.flush_completions fuel want t e st).2.trace =
      st.reqQueued + Reactor.dispatchCount st.trace ∧
    Reactor.dispatchCount st.trace + want ≤
      Reactor.dispatchCount (Reactor.flush_completions fuel want t e st).2.trace := by
  unfold Reactor.flush_completions at h ⊢
  cases hfc : Reactor.fcLoop want fuel t e 0 st with
  | mk r st2 =>
    rw [hfc] at h
    cases r with
    | ok v =>
      rcases v with ⟨t1, e1, c1⟩
      obtain ⟨h1, h2, h3⟩ :=
        Reactor.fcLoop_want_le_one want hw fuel t e st t1 e1 c1 (by rw [hfc])
      rw [hfc] at h1 h2
      dsimp only at h1 h2 ⊢
      exact ⟨by omega, by omega⟩
    | err => simp at h
    | panic p => simp at h
    | div => simp at h

/-- Claim C3, witness for the amended theorem: `want = 1` with one
completion pending; the counter drops from 1 to 0 and one dispatch event is
recorded. -/
theorem c3_witness :
    (Reactor.flush_completions 2 1 0 false stOneCompletion).2.reqQueued +
        Reactor.dispatchCount (Reactor.flush_completions 2 1 0 false stOneCompletion).2.trace =
      stOneCompletion.reqQueued + Reactor.dispatchCount stOneCompletion.trace ∧
    Reactor.dispatchCount stOneCompletion.trace + 1 ≤
      Reactor.dispatchCount (Reactor.flush_completions 2 1 0 false stOneCompletion).2.trace := by
  exact c3_decrement_matches_dispatch 2 1 0 false stOneCompletion 0 false (by decide) (by decide)

/-- Claim C10: the timeout-marker branch of `flush_completions` decrements
the local timeout counter with an unchecked `usize` subtraction; it cannot
underflow when the markers reaching the call are bounded by the `timeouts`
argument, and a call with `timeouts = 0` while a marker is pending does
underflow. -/
theorem c10_timeout_counter_underflow :
    (∀ (fuel want t : Nat) (e : Bool) (st : Reactor.RSt),
      Reactor.markersTotal st.batches ≤ t →
      (Reactor.flush_completions fuel want t e st).1 ≠ .panic .timeoutUnderflow) ∧
    (Reactor.flush_completions 2 0 0 false stMarkerPending).1 = .panic .timeoutUnderflow := by
  constructor
  · intro fuel want t e st hm
    have h := Reactor.fcLoop_no_timeout_underflow want fuel t e 0 st hm
    unfold Reactor.flush_completions
    cases hfc : Reactor.fcLoop want fuel t e 0 st with
    | mk r st2 =>
      rw [hfc] at h
      cases r with
      | ok v =>
        rcases v with ⟨t1, e1, c1⟩
        simp
      | err => simp
      | panic p =>
        dsimp only
        simpa using h
      | div => simp
  · decide

/-- Claim C10, witness: the same pending marker with `timeouts = 1` does not
underflow. -/
theorem c10_witness :
    (Reactor.flush_completions 2 0 1 false stMarkerPending).1 ≠ .panic .timeoutUnderflow := by
  exact c10_timeout_counter_underflow.1 2 0 1 false stMarkerPending (by decide)

namespace Reactor

lemma traceExt_refl (st : RSt) : TraceExt st st := ⟨[], by simp⟩

lemma traceExt_of_eq {st st' : RSt} (h : st'.trace = st.trace) : TraceExt st st' :=
  ⟨[], by simp [h]⟩

lemma traceExt_trans {a b c : RSt} (h1 : TraceExt a b) (h2 : TraceExt b c) : TraceExt a c := by
  obtain ⟨d1, hd1⟩ := h1
  obtain ⟨d2, hd2⟩ := h2
  exact ⟨d1 ++ d2, by rw [hd2, hd1, List.append_assoc]⟩

lemma push0Count_mono {st st' : RSt} (h : TraceExt st st') :
    push0Count st.trace ≤ push0Count st'.trace := by
  obtain ⟨d, hd⟩ := h
  rw [hd, push0Count_append]
  omega

lemma saw1Count_mono {st st' : RSt} (h : TraceExt st st') :
    saw1Count st.trace ≤ saw1Count st'.trace := by
  obtain ⟨d, hd⟩ := h
  rw [hd, saw1Count_append]
  omega

lemma processCqes_ext : ∀ (cqes : List Cqe) (t : Nat) (e : Bool) (c : Nat) (tr : List Event)
    (t1 : Nat) (e1 : Bool) (c1 : Nat) (tr1 : List Event),
    processCqes cqes t e c tr = .ok (t1, e1, c1, tr1) → ∃ d, tr1 = tr ++ d
  | [], t, e, c, tr, t1, e1, c1, tr1 => by
    intro h
    simp only [processCqes, Except.ok.injEq, Prod.mk.injEq] at h
    obtain ⟨-, -, -, htr⟩ := h
    exact ⟨[], by simp [htr]⟩
  | cqe :: rest, t, e, c, tr, t1, e1, c1, tr1 => by
    intro h
    simp only [processCqes] at h
    by_cases hu : cqe.userData = 0
    · simp only [hu, if_true] at h
      cases t with
      | zero => exact absurd h (by simp)
      | succ t' => exact processCqes_ext rest t' _ c tr t1 e1 c1 tr1 h
    · simp only [hu, if_false] at h
      obtain ⟨d, hd⟩ :=
        processCqes_ext rest t e (c + 1) (tr ++ [.dispatch cqe.userData cqe.result]) t1 e1 c1 tr1 h
      exact ⟨Event.dispatch cqe.userData cqe.result :: d, by rw [hd]; simp⟩

lemma fcLoop_ext (want : Nat) : ∀ (fuel t : Nat) (e : Bool) (c : Nat) (st : RSt),
    TraceExt st (fcLoop want fuel t e c st).2
  | 0, t, e, c, st => traceExt_refl st
  | fuel + 1, t, e, c, st => by
    rcases hrc : readCqes st with ⟨cqes, st1⟩
    have htr : st1.trace = st.trace := by
      have h' := readCqes_trace st
      rw [hrc] at h'
      exact h'
    simp only [fcLoop, hrc]
    cases hp : processCqes cqes t e c st1.trace with
    | error p =>
      exact traceExt_of_eq htr
    | ok v =>
      rcases v with ⟨t1, e1, c1, tr1⟩
      obtain ⟨d, hd⟩ := processCqes_ext cqes t e c st1.trace t1 e1 c1 tr1 hp
      have hext1 : TraceExt st ({ st1 with trace := tr1 } : RSt) := ⟨d, by simp [hd, htr]⟩
      dsimp only
      by_cases hle : c1 ≤ st1.reqQueued
      · rw [if_pos hle]
        by_cases hwc : want ≤ c1
        · rw [if_pos hwc]
          exact hext1
        · rw [if_neg hwc]
          exact traceExt_trans hext1 (fcLoop_ext want fuel t1 e1 c1 _)
      · rw [if_neg hle]
        exact hext1

lemma flush_completions_ext (fuel want t : Nat) (e : Bool) (st : RSt) :
    TraceExt st (flush_completions fuel want t e st).2 := by
  have h := fcLoop_ext want fuel t e 0 st
  unfold flush_completions
  cases hfc : fcLoop want fuel t e 0 st with
  | mk r st2 =>
    rw [hfc] at h
    cases r with
    | ok v =>
      rcases v with ⟨t1, e1, c1⟩
      exact h
    | err => exact h
    | panic p => exact h
    | div => exact h

lemma submit_and_wait_trace (want : Nat) (st : RSt) :
    (submit_and_wait want st).2.trace = st.trace ++ [Event.sawCall want] := by
  cases hs : st.saw with
  | nil => simp [submit_and_wait, hs]
  | cons o rest => cases o <;> simp [submit_and_wait, hs]

lemma flush_submissions_ext (want : Nat) : ∀ (fuel t : Nat) (e : Bool) (st : RSt),
    TraceExt st (flush_submissions want fuel t e st).2
  | 0, t, e, st => traceExt_refl st
  | fuel + 1, t, e, st => by
    rcases hsw : submit_and_wait want st with ⟨o, st1⟩
    have hext1 : TraceExt st st1 := by
      have h' := submit_and_wait_trace want st
      rw [hsw] at h'
      exact ⟨[Event.sawCall want], h'⟩
    simp only [flush_submissions, hsw]
    cases o with
    | ok => exact hext1
    | eintr => exact traceExt_trans hext1 (flush_submissions_ext want fuel t e st1)
    | ebusy =>
      dsimp only
      have hext2 := flush_completions_ext fuel 1 t e st1
      cases hfc : flush_completions fuel 1 t e st1 with
      | mk r st2 =>
        rw [hfc] at hext2
        cases r with
        | ok v =>
          rcases v with ⟨t1, e1⟩
          exact traceExt_trans hext1
            (traceExt_trans hext2 (flush_submissions_ext want fuel t1 e1 st2))
        | err => exact traceExt_trans hext1 hext2
        | panic p => exact traceExt_trans hext1 hext2
        | div => exact traceExt_trans hext1 hext2
    | eagain =>
      dsimp only
      have hext2 := flush_completions_ext fuel 1 t e st1
      cases hfc : flush_completions fuel 1 t e st1 with
      | mk r st2 =>
        rw [hfc] at hext2
        cases r with
        | ok v =>
          rcases v with ⟨t1, e1⟩
          exact traceExt_trans hext1
            (traceExt_trans hext2 (flush_submissions_ext want fuel t1 e1 st2))
        | err => exact traceExt_trans hext1 hext2
        | panic p => exact traceExt_trans hext1 hext2
        | div => exact traceExt_trans hext1 hext2
    | fatal => exact hext1

lemma flush_ext (fuel want t : Nat) (e : Bool) (st : RSt) :
    TraceExt st (flush fuel want t e st).2 := by
  have h1 := flush_submissions_ext want fuel t e st
  unfold flush
  cases hfs : flush_submissions want fuel t e st with
  | mk r st1 =>
    rw [hfs] at h1
    cases r with
    | ok v => exact traceExt_trans h1 (flush_completions_ext fuel 0 t e st1)
    | err => exact h1
    | panic p => exact h1
    | div => exact h1

lemma sqPush_some_trace {st st' : RSt} {en : Entry} (h : sqPush st en = some st') :
    st'.trace = st.trace ++ [Event.push en.userData en.opcode] := by
  by_cases hlt : st.sq.length < st.sqCap
  · simp only [sqPush, if_pos hlt, Option.some.injEq] at h
    rw [← h]
  · simp [sqPush, hlt] at h

end Reactor

namespace Reactor

lemma push0Count_push0 (op : Nat) : push0Count [Event.push 0 op] = 1 := rfl

lemma saw1Count_push (u op : Nat) : saw1Count [Event.push u op] = 0 := rfl

lemma push0Count_saw (w : Nat) : push0Count [Event.sawCall w] = 0 := rfl

lemma saw1Count_saw1 : saw1Count [Event.sawCall 1] = 1 := rfl


lemma flush_submissions_ok_saw1 : ∀ (fuel t : Nat) (e : Bool) (st : RSt) (t' : Nat) (e' : Bool),
    (flush_submissions 1 fuel t e st).1 = .ok (t', e') →
    saw1Count st.trace + 1 ≤ saw1Count (flush_submissions 1 fuel t e st).2.trace
  | 0, t, e, st, t', e' => by
    intro h
    simp [flush_submissions] at h
  | fuel + 1, t, e, st, t', e' => by
    intro h
    rcases hsw : submit_and_wait 1 st with ⟨o, st1⟩
    have hs1 : saw1Count st1.trace = saw1Count st.trace + 1 := by
      have h' := submit_and_wait_trace 1 st
      rw [hsw] at h'
      rw [h', saw1Count_append, saw1Count_saw1]
    simp only [flush_submissions, hsw] at h ⊢
    cases o with
    | ok =>
      dsimp only at h ⊢
      omega
    | eintr =>
      dsimp only at h ⊢
      have hmono := saw1Count_mono (flush_submissions_ext 1 fuel t e st1)
      omega
    | ebusy =>
      dsimp only at h ⊢
      cases hfc : flush_completions fuel 1 t e st1 with
      | mk r st2 =>
        rw [hfc] at h
        have hext2 := flush_completions_ext fuel 1 t e st1
        rw [hfc] at hext2
        have hm2 := saw1Count_mono hext2
        dsimp only at hm2
        cases r with
        | ok v =>
          rcases v with ⟨t1, e1⟩
          dsimp only at h ⊢
          have hmono := saw1Count_mono (flush_submissions_ext 1 fuel t1 e1 st2)
          omega
        | err => simp at h
        | panic p => simp at h
        | div => simp at h
    | eagain =>
      dsimp only at h ⊢
      cases hfc : flush_completions fuel 1 t e st1 with
      | mk r st2 =>
        rw [hfc] at h
        have hext2 := flush_completions_ext fuel 1 t e st1
        rw [hfc] at hext2
        have hm2 := saw1Count_mono hext2
        dsimp only at hm2
        cases r with
        | ok v =>
          rcases v with ⟨t1, e1⟩
          dsimp only at h ⊢
          have hmono := saw1Count_mono (flush_submissions_ext 1 fuel t1 e1 st2)
          omega
        | err => simp at h
        | panic p => simp at h
        | div => simp at h
    | fatal =>
      dsimp only at h ⊢
      simp at h

lemma flush_ok_saw1 (fuel t : Nat) (e : Bool) (st : RSt) (t' : Nat) (e' : Bool)
    (h : (flush fuel 1 t e st).1 = .ok (t', e')) :
    saw1Count st.trace + 1 ≤ saw1Count (flush fuel 1 t e st).2.trace := by
  unfold flush at h ⊢
  cases hfs : flush_submissions 1 fuel t e st with
  | mk r0 st1 =>
    cases r0 with
    | ok v =>
      rcases v with ⟨ta, ea⟩
      have h1 := flush_submissions_ok_saw1 fuel t e st ta ea (by rw [hfs])
      rw [hfs] at h1
      dsimp only at h1 ⊢
      have h2 := saw1Count_mono (flush_completions_ext fuel 0 t e st1)
      omega
    | err =>
      rw [hfs] at h
      exact absurd (show (Res.err : Res (Nat × Bool)) = Res.ok (t', e') from h) (by simp)
    | panic p =>
      rw [hfs] at h
      exact absurd (show (Res.panic p : Res (Nat × Bool)) = Res.ok (t', e') from h) (by simp)
    | div =>
      rw [hfs] at h
      exact absurd (show (Res.div : Res (Nat × Bool)) = Res.ok (t', e') from h) (by simp)

end Reactor

namespace Reactor

lemma rfnLoop_ext (ns a b : Nat) : ∀ (fuel t : Nat) (e : Bool) (st : RSt),
    TraceExt st (rfnLoop ns a b fuel t e st).2
  | 0, t, e, st => traceExt_refl st
  | fuel + 1, t, e, st => by
    cases e with
    | true =>
      have heq : rfnLoop ns a b (fuel + 1) t true st = (.ok (t, true), st) := by
        simp [rfnLoop]
      rw [heq]
      exact traceExt_refl st
    | false =>
      simp only [rfnLoop, Bool.false_eq_true, if_false]
      cases hsp : sqPush st timeoutEntry with
      | some st1 =>
        have hext1 : TraceExt st st1 := ⟨_, sqPush_some_trace hsp⟩
        dsimp only
        cases hfl : flush fuel 1 (t + 1) false st1 with
        | mk r st2 =>
          have hext2 : TraceExt st1 st2 := by
            have h' := flush_ext fuel 1 (t + 1) false st1
            rw [hfl] at h'
            exact h'
          cases r with
          | ok v =>
            rcases v with ⟨t2, e2⟩
            dsimp only
            exact traceExt_trans hext1
              (traceExt_trans hext2 (rfnLoop_ext ns a b fuel t2 e2 st2))
          | err => exact traceExt_trans hext1 hext2
          | panic p => exact traceExt_trans hext1 hext2
          | div => exact traceExt_trans hext1 hext2
      | none =>
        dsimp only
        cases hfs : flush_submissions 0 fuel (t + 1) false st with
        | mk r0 st1 =>
          have hext1 : TraceExt st st1 := by
            have h' := flush_submissions_ext 0 fuel (t + 1) false st
            rw [hfs] at h'
            exact h'
          cases r0 with
          | ok v =>
            rcases v with ⟨t2, e2⟩
            dsimp only
            cases hsp2 : sqPush st1 timeoutEntry with
            | some st2 =>
              have hext2 : TraceExt st1 st2 := ⟨_, sqPush_some_trace hsp2⟩
              dsimp only
              cases hfl : flush fuel 1 t2 e2 st2 with
              | mk r st3 =>
                have hext3 : TraceExt st2 st3 := by
                  have h' := flush_ext fuel 1 t2 e2 st2
                  rw [hfl] at h'
                  exact h'
                cases r with
                | ok v2 =>
                  rcases v2 with ⟨t3, e3⟩
                  dsimp only
                  exact traceExt_trans hext1 (traceExt_trans hext2
                    (traceExt_trans hext3 (rfnLoop_ext ns a b fuel t3 e3 st3)))
                | err => exact traceExt_trans hext1 (traceExt_trans hext2 hext3)
                | panic p => exact traceExt_trans hext1 (traceExt_trans hext2 hext3)
                | div => exact traceExt_trans hext1 (traceExt_trans hext2 hext3)
            | none => exact hext1
          | err => exact hext1
          | panic p => exact hext1
          | div => exact hext1

lemma rfnDrain_ext : ∀ (fuel t : Nat) (e : Bool) (st : RSt),
    TraceExt st (rfnDrain fuel t e st).2
  | fuel, 0, e, st => by
    have heq : rfnDrain fuel 0 e st = (.ok (0, e), st) := by
      simp [rfnDrain]
    rw [heq]
    exact traceExt_refl st
  | 0, t + 1, e, st => by
    have heq : rfnDrain 0 (t + 1) e st = (.div, st) := by
      simp [rfnDrain]
    rw [heq]
    exact traceExt_refl st
  | f + 1, t + 1, e, st => by
    simp only [rfnDrain]
    cases hfc : flush_completions f 0 (t + 1) e st with
    | mk r st1 =>
      have hext1 : TraceExt st st1 := by
        have h' := flush_completions_ext f 0 (t + 1) e st
        rw [hfc] at h'
        exact h'
      cases r with
      | ok v =>
        rcases v with ⟨t1, e1⟩
        dsimp only
        exact traceExt_trans hext1 (rfnDrain_ext f t1 e1 st1)
      | err => exact hext1
      | panic p => exact hext1
      | div => exact hext1

end Reactor

namespace Reactor

/-- a successful return of the `while !etime` loop implies the `etime` flag
was set, and (when entered with `etime` clear) at least one timeout
submission with user-data 0 was pushed and at least one `submit_and_wait(1)`
was issued. -/
lemma rfnLoop_ok : ∀ (ns a b fuel t : Nat) (e : Bool) (st : RSt) (t' : Nat) (e' : Bool),
    (rfnLoop ns a b fuel t e st).1 = .ok (t', e') →
    e' = true ∧
    (e = false →
      push0Count st.trace + 1 ≤ push0Count (rfnLoop ns a b fuel t e st).2.trace ∧
      saw1Count st.trace + 1 ≤ saw1Count (rfnLoop ns a b fuel t e st).2.trace)
  | ns, a, b, 0, t, e, st, t', e' => by
    intro h
    simp [rfnLoop] at h
  | ns, a, b, fuel + 1, t, e, st, t', e' => by
    intro h
    cases e with
    | true =>
      have heq : rfnLoop ns a b (fuel + 1) t true st = (.ok (t, true), st) := by
        simp [rfnLoop]
      rw [heq] at h
      simp only [Res.ok.injEq, Prod.mk.injEq] at h
      exact ⟨h.2.symm, by simp⟩
    | false =>
      simp only [rfnLoop, Bool.false_eq_true, if_false] at h ⊢
      cases hsp : sqPush st timeoutEntry with
      | some st1 =>
        rw [hsp] at h
        dsimp only at h ⊢
        have hpush := sqPush_some_trace hsp
        have hone : push0Count [Event.push timeoutEntry.userData timeoutEntry.opcode] = 1 := rfl
        have hzero : saw1Count [Event.push timeoutEntry.userData timeoutEntry.opcode] = 0 := rfl
        have hp1 : push0Count st1.trace = push0Count st.trace + 1 := by
          rw [hpush, push0Count_append, hone]
        have hs1 : saw1Count st1.trace = saw1Count st.trace := by
          rw [hpush, saw1Count_append, hzero]
          omega
        cases hfl : flush fuel 1 (t + 1) false st1 with
        | mk r st2 =>
          rw [hfl] at h
          have hext2 : TraceExt st1 st2 := by
            have h' := flush_ext fuel 1 (t + 1) false st1
            rw [hfl] at h'
            exact h'
          cases r with
          | ok v =>
            rcases v with ⟨t2, e2⟩
            dsimp only at h ⊢
            have ih := rfnLoop_ok ns a b fuel t2 e2 st2 t' e' h
            have hfsaw : saw1Count st1.trace + 1 ≤ saw1Count st2.trace := by
              have h' := flush_ok_saw1 fuel (t + 1) false st1 t2 e2 (by rw [hfl])
              rw [hfl] at h'
              exact h'
            have hrecext := rfnLoop_ext ns a b fuel t2 e2 st2
            have hrp := push0Count_mono hrecext
            have hrs := saw1Count_mono hrecext
            have hfp := push0Count_mono hext2
            exact ⟨ih.1, fun _ => ⟨by omega, by omega⟩⟩
          | err => simp at h
          | panic p => simp at h
          | div => simp at h
      | none =>
        rw [hsp] at h
        dsimp only at h ⊢
        cases hfs : flush_submissions 0 fuel (t + 1) false st with
        | mk r0 st1 =>
          rw [hfs] at h
          have hext1 : TraceExt st st1 := by
            have h' := flush_submissions_ext 0 fuel (t + 1) false st
            rw [hfs] at h'
            exact h'
          cases r0 with
          | ok v =>
            rcases v with ⟨t2, e2⟩
            dsimp only at h ⊢
            cases hsp2 : sqPush st1 timeoutEntry with
            | some st2 =>
              rw [hsp2] at h
              dsimp only at h ⊢
              have hpush2 := sqPush_some_trace hsp2
              have hone : push0Count [Event.push timeoutEntry.userData timeoutEntry.opcode] = 1 := rfl
              have hzero : saw1Count [Event.push timeoutEntry.userData timeoutEntry.opcode] = 0 := rfl
              have hp2 : push0Count st2.trace = push0Count st1.trace + 1 := by
                rw [hpush2, push0Count_append, hone]
              have hs2 : saw1Count st2.trace = saw1Count st1.trace := by
                rw [hpush2, saw1Count_append, hzero]
                omega
              cases hfl : flush fuel 1 t2 e2 st2 with
              | mk r st3 =>
                rw [hfl] at h
                have hext3 : TraceExt st2 st3 := by
                  have h' := flush_ext fuel 1 t2 e2 st2
                  rw [hfl] at h'
                  exact h'
                cases r with
                | ok v2 =>
                  rcases v2 with ⟨t3, e3⟩
                  dsimp only at h ⊢
                  have ih := rfnLoop_ok ns a b fuel t3 e3 st3 t' e' h
                  have hfsaw : saw1Count st2.trace + 1 ≤ saw1Count st3.trace := by
                    have h' := flush_ok_saw1 fuel t2 e2 st2 t3 e3 (by rw [hfl])
                    rw [hfl] at h'
                    exact h'
                  have hrecext := rfnLoop_ext ns a b fuel t3 e3 st3
                  have hrp := push0Count_mono hrecext
                  have hrs := saw1Count_mono hrecext
                  have h3p := push0Count_mono hext3
                  have h1p := push0Count_mono hext1
                  have h1s := saw1Count_mono hext1
                  exact ⟨ih.1, fun _ => ⟨by omega, by omega⟩⟩
                | err => simp at h
                | panic p => simp at h
                | div => simp at h
            | none =>
              rw [hsp2] at h
              simp at h
          | err => simp at h
          | panic p => simp at h
          | div => simp at h

/-- the final drain loop of `run_for_ns` returns only once the local timeout
counter is zero. -/
lemma rfnDrain_ok : ∀ (fuel t : Nat) (e : Bool) (st : RSt) (t' : Nat) (e' : Bool),
    (rfnDrain fuel t e st).1 = .ok (t', e') → t' = 0
  | fuel, 0, e, st, t', e' => by
    intro h
    have heq : rfnDrain fuel 0 e st = (.ok (0, e), st) := by
      simp [rfnDrain]
    rw [heq] at h
    simp only [Res.ok.injEq, Prod.mk.injEq] at h
    exact h.1.symm
  | 0, t + 1, e, st, t', e' => by
    intro h
    have heq : rfnDrain 0 (t + 1) e st = (.div, st) := by
      simp [rfnDrain]
    rw [heq] at h
    simp at h
  | f + 1, t + 1, e, st, t', e' => by
    intro h
    simp only [rfnDrain] at h
    cases hfc : flush_completions f 0 (t + 1) e st with
    | mk r st1 =>
      rw [hfc] at h
      cases r with
      | ok v =>
        rcases v with ⟨t1, e1⟩
        dsimp only at h
        exact rfnDrain_ok f t1 e1 st1 t' e' h
      | err => simp at h
      | panic p => simp at h
      | div => simp at h

end Reactor

/-- Claim C8: `run_for_ns` performs at least one submission-plus-completion
cycle for every `ns` (the loop body runs before `etime` is ever tested
against a completed timeout): a successful `while !etime` loop exits only
with `etime` set, having pushed at least one timeout submission with
user-data 0 and issued at least one `submit_and_wait(1)`; the final drain
loop returns only with the local timeout counter at zero; and a successful
`run_for_ns` has pushed at least one user-data-0 timeout submission and
waited at least once. -/
theorem c8_run_for_ns_at_least_one_cycle :
    (∀ (ns a b fuel t : Nat) (st : Reactor.RSt) (t' : Nat) (e' : Bool),
      (Reactor.rfnLoop ns a b fuel t false st).1 = .ok (t', e') →
      e' = true ∧
      Reactor.push0Count st.trace + 1 ≤
        Reactor.push0Count (Reactor.rfnLoop ns a b fuel t false st).2.trace ∧
      Reactor.saw1Count st.trace + 1 ≤
        Reactor.saw1Count (Reactor.rfnLoop ns a b fuel t false st).2.trace) ∧
    (∀ (fuel t : Nat) (e : Bool) (st : Reactor.RSt) (t' : Nat) (e' : Bool),
      (Reactor.rfnDrain fuel t e st).1 = .ok (t', e') → t' = 0) ∧
    (∀ (fuel ns : Nat) (st : Reactor.RSt),
      (Reactor.run_for_ns fuel ns st).1 = .ok () →
      Reactor.push0Count st.trace + 1 ≤
        Reactor.push0Count (Reactor.run_for_ns fuel ns st).2.trace ∧
      Reactor.saw1Count st.trace + 1 ≤
        Reactor.saw1Count (Reactor.run_for_ns fuel ns st).2.trace) := by
  refine ⟨?_, ?_, ?_⟩
  · intro ns a b fuel t st t' e' h
    obtain ⟨he, hc⟩ := Reactor.rfnLoop_ok ns a b fuel t false st t' e' h
    obtain ⟨hp, hs⟩ := hc rfl
    exact ⟨he, hp, hs⟩
  · intro fuel t e st t' e' h
    exact Reactor.rfnDrain_ok fuel t e st t' e' h
  · intro fuel ns st h
    simp only [Reactor.run_for_ns] at h ⊢
    cases hlp : Reactor.rfnLoop ns st.clockSec st.clockNsec fuel 0 false st with
    | mk r1 st1 =>
      rw [hlp] at h
      cases r1 with
      | ok v =>
        rcases v with ⟨t, e⟩
        dsimp only at h ⊢
        obtain ⟨-, hc⟩ :=
          Reactor.rfnLoop_ok ns st.clockSec st.clockNsec fuel 0 false st t e (by rw [hlp])
        obtain ⟨hp, hs⟩ := hc rfl
        rw [hlp] at hp hs
        dsimp only at hp hs
        cases hdr : Reactor.rfnDrain fuel t e st1 with
        | mk r2 st2 =>
          rw [hdr] at h
          dsimp only at h ⊢
          have hdext := Reactor.rfnDrain_ext fuel t e st1
          rw [hdr] at hdext
          have hdp := Reactor.push0Count_mono hdext
          have hds := Reactor.saw1Count_mono hdext
          dsimp only at hdp hds
          exact ⟨by omega, by omega⟩
      | err =>
        dsimp only at h
        simp [Reactor.resUnit] at h
      | panic p =>
        dsimp only at h
        simp [Reactor.resUnit] at h
      | div =>
        dsimp only at h
        simp [Reactor.resUnit] at h

/-- Claim C8, witness: a concrete reactor whose oracle completes the first
timeout with `ETIME`; `run_for_ns 5 0` succeeds after one full cycle. -/
theorem c8_witness :
    Reactor.push0Count stMarkerPending.trace + 1 ≤
      Reactor.push0Count (Reactor.run_for_ns 5 0 stMarkerPending).2.trace ∧
    Reactor.saw1Count stMarkerPending.trace + 1 ≤
      Reactor.saw1Count (Reactor.run_for_ns 5 0 stMarkerPending).2.trace := by
  exact c8_run_for_ns_at_least_one_cycle.2.2 5 0 stMarkerPending (by decide)

namespace Exec

lemma chainTo_congr {next next' : Nat → Option Nat} : ∀ {L : List Nat} {cur : Option Nat},
    chainTo next cur L → (∀ x ∈ L, next' x = next x) → chainTo next' cur L
  | [], cur => by
    intro h _
    exact h
  | t :: l, cur => by
    intro h hagree
    obtain ⟨hc, hrest⟩ := h
    refine ⟨hc, ?_⟩
    rw [hagree t (by simp)]
    exact chainTo_congr hrest fun x hx => hagree x (by simp [hx])

lemma enqueue_next_ne (q : QState) (t x : Nat) (hx : x ≠ t) :
    (enqueue q t).next x = q.next x := by
  simp [enqueue, hx]

lemma enqueue_next_self (q : QState) (t : Nat) :
    (enqueue q t).next t = headOpt q := by
  simp [enqueue, headOpt]

lemma enqueueAll_next_not_mem : ∀ (ts : List Nat) (q : QState) (x : Nat), x ∉ ts →
    (enqueueAll q ts).next x = q.next x
  | [], q, x => by
    intro _
    rfl
  | t :: ts, q, x => by
    intro hx
    have hxt : x ≠ t := by
      intro hc
      exact hx (by simp [hc])
    have hxts : x ∉ ts := fun hc => hx (by simp [hc])
    calc (enqueueAll (enqueue q t) ts).next x
        = (enqueue q t).next x := enqueueAll_next_not_mem ts (enqueue q t) x hxts
      _ = q.next x := enqueue_next_ne q t x hxt

lemma enqueueAll_chain : ∀ (ts : List Nat) (q : QState) (L : List Nat),
    chainTo q.next (headOpt q) L → ts.Nodup → (∀ x ∈ ts, x ∉ L) → (∀ x ∈ ts, x ≠ 0) →
    chainTo (enqueueAll q ts).next (headOpt (enqueueAll q ts)) (ts.reverse ++ L)
  | [], q, L => by
    intro hch _ _ _
    simpa using hch
  | t :: ts, q, L => by
    intro hch hnd hfresh h0
    have ht0 : t ≠ 0 := h0 t (by simp)
    have htL : t ∉ L := hfresh t (by simp)
    have hnd' : ts.Nodup := (List.nodup_cons.mp hnd).2
    have htts : t ∉ ts := (List.nodup_cons.mp hnd).1
    have hch1 : chainTo (enqueue q t).next (headOpt (enqueue q t)) (t :: L) := by
      constructor
      · simp [enqueue, headOpt, ht0]
      · rw [enqueue_next_self]
        exact chainTo_congr hch fun x hx =>
          enqueue_next_ne q t x (fun hc => htL (hc ▸ hx))
    have hres := enqueueAll_chain ts (enqueue q t) (t :: L) hch1 hnd'
      (fun x hx => by
        simp only [List.mem_cons, not_or]
        exact ⟨fun hc => htts (hc ▸ hx), hfresh x (by simp [hx])⟩)
      (fun x hx => h0 x (by simp [hx]))
    have harr : ts.reverse ++ (t :: L) = (t :: ts).reverse ++ L := by
      simp
    rw [harr] at hres
    exact hres

lemma setNext_next_self (q : QState) (t : Nat) (v : Option Nat) :
    (setNext q t v).next t = v := by
  simp [setNext]

lemma setNext_next_ne (q : QState) (t x : Nat) (v : Option Nat) (hx : x ≠ t) :
    (setNext q t v).next x = q.next x := by
  simp [setNext, hx]

lemma drainAux_collect : ∀ (L : List Nat) (q : QState) (acc : List (Nat × Option Nat))
    (cur : Option Nat), chainTo q.next cur L → L.Nodup →
    ∃ qf, drainAux visitCollect L.length (q, acc) cur =
            some (qf, acc ++ L.map (fun t => (t, (none : Option Nat)))) ∧
          qf.head = q.head ∧
          ∀ x, qf.next x = if x ∈ L then none else q.next x
  | [], q, acc, cur => by
    intro hch _
    refine ⟨q, ?_, rfl, ?_⟩
    · rw [show cur = none from hch]
      simp [drainAux]
    · intro x
      simp
  | t :: l, q, acc, cur => by
    intro hch hnd
    obtain ⟨hc, hrest⟩ := hch
    have htl : t ∉ l := (List.nodup_cons.mp hnd).1
    have hnd' : l.Nodup := (List.nodup_cons.mp hnd).2
    have hch' : chainTo (setNext q t none).next (q.next t) l :=
      chainTo_congr hrest fun x hx => setNext_next_ne q t x none (fun hc' => htl (hc' ▸ hx))
    obtain ⟨qf, heq, hhead, hnext⟩ :=
      drainAux_collect l (setNext q t none) (acc ++ [(t, none)]) (q.next t) hch' hnd'
    refine ⟨qf, ?_, ?_, ?_⟩
    · rw [show cur = some t from hc]
      show drainAux visitCollect (l.length + 1) (q, acc) (some t) = _
      simp only [drainAux, visitCollect, setNext_next_self]
      rw [heq]
      simp
    · rw [hhead]
      rfl
    · intro x
      rw [hnext x]
      by_cases hx : x = t
      · subst hx
        simp [setNext_next_self, htl]
      · rw [setNext_next_ne q t x none hx]
        by_cases hxl : x ∈ l <;> simp [hxl, hx]

end Exec

/-- Claim C7: enqueueing distinct (non-null) tasks into a fresh intrusive
queue and then draining visits exactly the enqueued tasks in reverse (LIFO)
order, each node's link slot is already cleared when the visit callback
receives it, and afterwards the queue is empty (null head, all link slots
cleared) and hence reusable. -/
theorem c7_drain_lifo_clears_links (ts : List Nat) (hnd : ts.Nodup)
    (h0 : ∀ x ∈ ts, x ≠ 0) :
    (Exec.drainExperiment ts).map (fun s => s.2.map Prod.fst) = some ts.reverse ∧
    (Exec.drainExperiment ts).map (fun s => s.2.all fun p => p.2.isNone) = some true ∧
    (Exec.drainExperiment ts).map (fun s => s.1.head) = some 0 ∧
    ∀ x : Nat, (Exec.drainExperiment ts).map (fun s => s.1.next x) = some none := by
  have hch : Exec.chainTo (Exec.enqueueAll Exec.emptyQ ts).next
      (Exec.headOpt (Exec.enqueueAll Exec.emptyQ ts)) ts.reverse := by
    have h := Exec.enqueueAll_chain ts Exec.emptyQ []
      (by simp [Exec.chainTo, Exec.headOpt, Exec.emptyQ]) hnd (by simp) h0
    simpa using h
  have hndrev : ts.reverse.Nodup := by simpa using hnd
  obtain ⟨qf, heq, hhead, hnext⟩ := Exec.drainAux_collect ts.reverse
    { Exec.enqueueAll Exec.emptyQ ts with head := 0 } []
    (Exec.headOpt (Exec.enqueueAll Exec.emptyQ ts)) hch hndrev
  rw [List.length_reverse] at heq
  have hexp : Exec.drainExperiment ts =
      some (qf, [] ++ ts.reverse.map (fun t => (t, (none : Option Nat)))) := heq
  refine ⟨?_, ?_, ?_, ?_⟩
  · rw [hexp]
    simp
    have hcomp : (Prod.fst ∘ fun t : Nat => (t, (none : Option Nat))) = id := rfl
    rw [hcomp, List.map_id]
  · rw [hexp]
    simp
  · rw [hexp]
    simpa using show qf.head = 0 from hhead
  · intro x
    rw [hexp]
    by_cases hx : x ∈ ts.reverse
    · simp [hnext x, hx]
    · have hxts : x ∉ ts := by
        intro hc
        exact hx (by simpa using hc)
      have hempty := Exec.enqueueAll_next_not_mem ts Exec.emptyQ x hxts
      have hval : qf.next x = none := by
        rw [hnext x]
        simp only [hx, if_false]
        exact hempty.trans rfl
      simp [hval]

/-- Claim C7, witness: three tasks enqueued as 1, 2, 3 are drained as
3, 2, 1 with the queue left empty and links cleared. -/
theorem c7_witness :
    (Exec.drainExperiment [1, 2, 3]).map (fun s => s.2.map Prod.fst) = some [3, 2, 1] ∧
    (Exec.drainExperiment [1, 2, 3]).map (fun s => s.2.all fun p => p.2.isNone) = some true ∧
    (Exec.drainExperiment [1, 2, 3]).map (fun s => s.1.head) = some 0 ∧
    (Exec.drainExperiment [1, 2, 3]).map (fun s => s.1.next 2) = some none := by
  have h := c7_drain_lifo_clears_links [1, 2, 3] (by decide) (by decide)
  exact ⟨by simpa using h.1, h.2.1, h.2.2.1, h.2.2.2 2⟩

namespace Exec

lemma countSpawnActs_nil : countSpawnActs [] = 0 := rfl

lemma countSpawnActs_cons_wake (t : Nat) (l : List PollAct) :
    countSpawnActs (.wake t :: l) = countSpawnActs l := by
  simp [countSpawnActs, List.countP_cons]

lemma countSpawnActs_cons_spawn (t : Nat) (l : List PollAct) :
    countSpawnActs (.spawn t :: l) = countSpawnActs l + 1 := by
  simp [countSpawnActs, List.countP_cons]

/-- the wake/spawn calls made during one poll change the counter by exactly
the number of spawn calls; wakes contribute nothing. -/
lemma foldl_applyAct_spawned : ∀ (acts : List PollAct) (q : QState) (n : Nat),
    (acts.foldl applyAct (q, n)).2 = n + countSpawnActs acts
  | [], q, n => by
    simp [countSpawnActs]
  | a :: l, q, n => by
    cases a with
    | wake t =>
      have ih := foldl_applyAct_spawned l (enqueue q t) n
      simp only [List.foldl_cons, applyAct] at ih ⊢
      rw [ih, countSpawnActs_cons_wake]
    | spawn t =>
      have ih := foldl_applyAct_spawned l (enqueue q t) (n + 1)
      simp only [List.foldl_cons, applyAct] at ih ⊢
      rw [ih, countSpawnActs_cons_spawn]
      omega

/-- the outer run loop returns only with the live-task counter at zero. -/
lemma runLoop_exits_at_zero {W : Type} (headers : Nat → HeaderInfo)
    (pollStep : W → Nat → W × PollEff) (finStep : W → Nat → W)
    (pd : ExecSt W → ExecSt W) (df : Nat) : ∀ (fuel : Nat) (st : ExecSt W),
    (runLoop headers pollStep finStep pd df fuel st).isSome = true →
    (runLoop headers pollStep finStep pd df fuel st).map (fun s => s.spawned) = some 0
  | 0, st => by
    intro h
    simp [runLoop] at h
  | fuel + 1, st => by
    intro h
    cases hit : runIteration headers pollStep finStep pd df st with
    | none =>
      have hnone : runLoop headers pollStep finStep pd df (fuel + 1) st = none := by
        simp only [runLoop, hit]
      rw [hnone] at h
      simp at h
    | some st1 =>
      have hstep : runLoop headers pollStep finStep pd df (fuel + 1) st =
          if st1.spawned = 0 then some st1
          else runLoop headers pollStep finStep pd df fuel st1 := by
        simp only [runLoop, hit]
      rw [hstep] at h ⊢
      by_cases hz : st1.spawned = 0
      · rw [if_pos hz] at h ⊢
        simp [hz]
      · rw [if_neg hz] at h ⊢
        exact runLoop_exits_at_zero headers pollStep finStep pd df fuel st1 h

end Exec

/-- Claim C5: the live-task counter discipline of the executor.  `spawn_task`
is the only increment (one per call); the wake-path enqueue never touches the
counter; the run loop's drain callback decrements exactly once per poll that
reports ready — net of the spawns the poll itself performed — and invokes the
finalizer exactly on ready; a task without a poll thunk changes nothing; and
the outer loop exits exactly when the counter is zero after a drain and the
post-drain hook. -/
theorem c5_live_counter_discipline :
    (∀ (W : Type) (st : Exec.ExecSt W) (t : Nat),
      (Exec.spawn_task st t).spawned = st.spawned + 1) ∧
    (∀ (W : Type) (st : Exec.ExecSt W) (t : Nat),
      (Exec.wakeEnqueue st t).spawned = st.spawned) ∧
    (∀ (W : Type) (headers : Nat → Exec.HeaderInfo) (pollStep : W → Nat → W × Exec.PollEff)
        (finStep : W → Nat → W) (t : Nat) (q : Exec.QState) (n : Nat) (w : W),
      ((headers t).hasPoll = true → (pollStep w t).2.finished = true →
        (Exec.runVisit headers pollStep finStep t (q, (n, w))).map (fun s => s.2.1) =
          (if n + Exec.countSpawnActs (pollStep w t).2.acts = 0 then none
           else some (n + Exec.countSpawnActs (pollStep w t).2.acts - 1)) ∧
        (Exec.runVisit headers pollStep finStep t (q, (n, w))).map (fun s => s.2.2) =
          (if n + Exec.countSpawnActs (pollStep w t).2.acts = 0 then none
           else some (if (headers t).hasFinalizer then finStep (pollStep w t).1 t
                      else (pollStep w t).1))) ∧
      ((headers t).hasPoll = true → (pollStep w t).2.finished = false →
        (Exec.runVisit headers pollStep finStep t (q, (n, w))).map (fun s => s.2.1) =
          some (n + Exec.countSpawnActs (pollStep w t).2.acts)) ∧
      ((headers t).hasPoll = false →
        Exec.runVisit headers pollStep finStep t (q, (n, w)) = some (q, (n, w)))) ∧
    (∀ (W : Type) (headers : Nat → Exec.HeaderInfo) (pollStep : W → Nat → W × Exec.PollEff)
        (finStep : W → Nat → W) (pd : Exec.ExecSt W → Exec.ExecSt W) (df fuel : Nat)
        (st : Exec.ExecSt W),
      (Exec.runLoop headers pollStep finStep pd df fuel st).isSome = true →
      (Exec.runLoop headers pollStep finStep pd df fuel st).map (fun s => s.spawned) = some 0) ∧
    (∀ (W : Type) (headers : Nat → Exec.HeaderInfo) (pollStep : W → Nat → W × Exec.PollEff)
        (finStep : W → Nat → W) (pd : Exec.ExecSt W → Exec.ExecSt W) (df fuel : Nat)
        (st : Exec.ExecSt W),
      (Exec.runIteration headers pollStep finStep pd df st).map (fun s => s.spawned) = some 0 →
      Exec.runLoop headers pollStep finStep pd df (fuel + 1) st =
        Exec.runIteration headers pollStep finStep pd df st) := by
  refine ⟨?_, ?_, ?_, ?_, ?_⟩
  · intro W st t
    rfl
  · intro W st t
    rfl
  · intro W headers pollStep finStep t q n w
    refine ⟨?_, ?_, ?_⟩
    · intro hpoll hfin
      have hqn := Exec.foldl_applyAct_spawned (pollStep w t).2.acts q n
      constructor
      · simp only [Exec.runVisit, hpoll, if_true, hfin]
        rw [hqn]
        cases hn : n + Exec.countSpawnActs (pollStep w t).2.acts with
        | zero => simp
        | succ m => simp
      · simp only [Exec.runVisit, hpoll, if_true, hfin]
        rw [hqn]
        cases hn : n + Exec.countSpawnActs (pollStep w t).2.acts with
        | zero => simp
        | succ m => simp
    · intro hpoll hfin
      have hqn := Exec.foldl_applyAct_spawned (pollStep w t).2.acts q n
      simp only [Exec.runVisit, hpoll, if_true, hfin]
      simp [hqn]
    · intro hpoll
      simp [Exec.runVisit, hpoll]
  · intro W headers pollStep finStep pd df fuel st h
    exact Exec.runLoop_exits_at_zero headers pollStep finStep pd df fuel st h
  · intro W headers pollStep finStep pd df fuel st h
    rw [Option.map_eq_some'] at h
    obtain ⟨st1, hit, hz⟩ := h
    simp only [Exec.runLoop, hit]
    rw [if_pos hz]

/-- Claim C5, witness: one spawned task whose poll reports ready at once;
the run loop exits with the counter at zero. -/
theorem c5_witness :
    (Exec.runLoop hdrsW pollStepW finStepW id 1 2 exStW).map (fun s => s.spawned) = some 0 := by
  exact c5_live_counter_discipline.2.2.2.1 Unit hdrsW pollStepW finStepW id 1 2 exStW rfl
